import Mathlib

/-!
Verification development for the polyshape admin list-acquisition engine.

The definitions below are a shallow embedding of the TypeScript source:
`src/controllers/projectsController.ts` (index extraction, entry and detail
coercion, per-item enrichment), the publication detail coercion of
`src/components/PublicationsList.tsx`, and the `ProjectsList` component
(sorting, filtering, pagination, paragraph split/join, the initial load
effect).  JSON values reaching the code through `response.json()` are
modelled by the inductive `Json`; network outcomes are modelled explicitly
as data (a `DetailResponse` per detail URL, a `LoadOutcome` for a whole
load), so the purely functional merge logic of the source becomes a total
Lean function of those outcomes.
-/

/-- A parsed JSON value (the result of `response.json()` in the source).
Object fields are the entries of the parsed object; `JSON.parse` keeps the
last duplicate key, so keys are distinct in every value the code can see. -/
inductive Json where
  | null : Json
  | bool (b : Bool) : Json
  | num (n : Int) : Json
  | str (s : String) : Json
  | arr (elems : List Json) : Json
  | obj (fields : List (String × Json)) : Json

/-- `isRecord` from the source: `typeof v === "object" && v !== null`.
In JavaScript this is `true` for arrays as well as plain objects. -/
def Json.isRecord : Json → Bool
  | .obj _ => true
  | .arr _ => true
  | _ => false

/-- JavaScript property access `u.k` on a parsed JSON value: named fields
exist only on objects (a parsed array has no named properties). -/
def Json.get : Json → String → Option Json
  | .obj fields, k => (fields.find? (fun f => f.1 = k)).map (fun f => f.2)
  | _, _ => none

/-- The source pattern `typeof u.k === "string" ? u.k : null`. -/
def Json.getStr (j : Json) (k : String) : Option String :=
  match j.get k with
  | some (.str s) => some s
  | _ => none

structure ProjectListItem where
  url : String
  pathname : String
deriving DecidableEq

structure ProjectPartner where
  name : String
  url : String
deriving DecidableEq

structure ProjectDetail where
  title : String
  content : String
  date : String
  partner : ProjectPartner
deriving DecidableEq

structure EnrichedItem where
  url : String
  pathname : String
  detail : Option ProjectDetail
  error : Option String
deriving DecidableEq

/-- `toListItem` from `projectsController.ts`: requires a record whose
`url` and `pathname` are strings; `if (!url || !pathname) return null`
also rejects empty strings (they are falsy in JavaScript). -/
def toListItem (u : Json) : Option ProjectListItem :=
  if u.isRecord = false then none
  else
    match u.getStr "url", u.getStr "pathname" with
    | some url, some pathname =>
        if url = "" ∨ pathname = "" then none else some ⟨url, pathname⟩
    | _, _ => none

/-- The `partner` block of `toDetail`: a record's `name` and `url` strings
with `""` defaults; `{name: "", url: ""}` when `partner` is absent or not a
record. -/
def partnerOf (u : Json) : ProjectPartner :=
  match u.get "partner" with
  | some p =>
      if p.isRecord then ⟨(p.getStr "name").getD "", (p.getStr "url").getD ""⟩
      else ⟨"", ""⟩
  | none => ⟨"", ""⟩

/-- `toDetail` from `projectsController.ts`: `title` must be a non-empty
string (`if (!title) return null`); `content` and `date` degrade to `""`
when absent or not strings; `partner` degrades field-wise, and to
`{name:"", url:""}` when absent or not a record. -/
def toDetail (u : Json) : Option ProjectDetail :=
  if u.isRecord = false then none
  else
    let title := u.getStr "title"
    let content := (u.getStr "content").getD ""
    let date := (u.getStr "date").getD ""
    let partner : ProjectPartner := partnerOf u
    match title with
    | some t => if t = "" then none else some ⟨t, content, date, partner⟩
    | none => none

structure PublicationDetail where
  title : String
  content : String
  date : String
  publicationUrl : String
  authors : List String
  venue : String
deriving DecidableEq

/-- The `authors` block of the publication `toDetail`: the string elements
of an `authors` array, `[]` when `authors` is absent or not an array. -/
def authorsOf (u : Json) : List String :=
  match u.get "authors" with
  | some (.arr xs) =>
      xs.filterMap (fun x => match x with | .str s => some s | _ => none)
  | _ => []

/-- `toDetail` from `PublicationsList.tsx`: same `title` rule; `content`,
`date`, `publicationUrl`, `venue` degrade to `""`; `authors` keeps only the
string elements of an array and degrades to `[]` otherwise. -/
def toDetailPub (u : Json) : Option PublicationDetail :=
  if u.isRecord = false then none
  else
    let title := u.getStr "title"
    let content := (u.getStr "content").getD ""
    let date := (u.getStr "date").getD ""
    let publicationUrl := (u.getStr "publicationUrl").getD ""
    let authors : List String := authorsOf u
    let venue := (u.getStr "venue").getD ""
    match title with
    | some t => if t = "" then none else some ⟨t, content, date, publicationUrl, authors, venue⟩
    | none => none

/-- Index-shape handling of `fetchProjects`: a bare array is taken as is;
otherwise a record's `data` array, else its `items` array; anything else
gives the empty index. -/
def extractListRaw : Json → List Json
  | .arr xs => xs
  | .obj fields =>
      match (Json.obj fields).get "data" with
      | some (.arr xs) => xs
      | _ =>
          match (Json.obj fields).get "items" with
          | some (.arr xs) => xs
          | _ => []
  | _ => []

/-- Outcome of one detail fetch (`fetch(b.url)` plus `r.json()`):
a 2xx response with a parsed body, a non-2xx status (the thrown
`HTTP <status>` error), any other thrown error with its message, or an
abort of the request. -/
inductive DetailResponse where
  | success (body : Json) : DetailResponse
  | httpError (status : Nat) : DetailResponse
  | networkError (msg : String) : DetailResponse
  | aborted : DetailResponse

/-- The per-item enrichment of `fetchProjects`: validate a 2xx body with
`toDetail` (`error: "Invalid detail schema"` on failure), turn a non-2xx
status or other error into `error`, and return the bare entry on abort. -/
def enrichOne (b : ProjectListItem) (resp : DetailResponse) : EnrichedItem :=
  match resp with
  | .success body =>
      match toDetail body with
      | none => ⟨b.url, b.pathname, none, some "Invalid detail schema"⟩
      | some d => ⟨b.url, b.pathname, some d, none⟩
  | .httpError status => ⟨b.url, b.pathname, none, some ("HTTP " ++ toString status)⟩
  | .networkError msg => ⟨b.url, b.pathname, none, some msg⟩
  | .aborted => ⟨b.url, b.pathname, none, none⟩

/-- The `Promise.all` fan-out of `fetchProjects`: every surviving entry is
enriched from its own detail outcome (`oracle i` is the outcome of entry
`i`'s fetch), independently of the other entries, in index order. -/
def enrichAll (oracle : Nat → DetailResponse) : List ProjectListItem → Nat → List EnrichedItem
  | [], _ => []
  | b :: rest, i => enrichOne b (oracle i) :: enrichAll oracle rest (i + 1)

/-- `fetchProjects` after a 2xx index response `indexResp`, with the detail
fetch outcomes given by `oracle`. -/
def fetchProjects (indexResp : Json) (oracle : Nat → DetailResponse) : List EnrichedItem :=
  enrichAll oracle ((extractListRaw indexResp).filterMap toListItem) 0

/-! ## View projection (`ProjectsList`): sort, filter, pagination -/

/-- `byDate` inside `filteredSorted`: a missing or empty date is 0
(`if (!d) return 0`), otherwise `Date.parse`; a `NaN` parse is 0.
`Date.parse` itself is a host primitive, abstracted as `parse` (with
`none` for `NaN`). -/
def byDate (parse : String → Option Int) (d : Option String) : Int :=
  match d with
  | none => 0
  | some s => if s = "" then 0 else (parse s).getD 0

/-- The sort key of an item: `byDate(it.detail?.date)`. -/
def itemKey (parse : String → Option Int) (it : EnrichedItem) : Int :=
  byDate parse (it.detail.map (fun d => d.date))

/-- One step of the stable descending sort: `x` (which precedes the already
sorted `ys` in the original list) is placed before the first element whose
key is `≤` its own, so equal keys keep their original order. -/
def insertDesc (key : EnrichedItem → Int) (x : EnrichedItem) : List EnrichedItem → List EnrichedItem
  | [] => [x]
  | y :: ys => if key y ≤ key x then x :: y :: ys else y :: insertDesc key x ys

/-- `[...list].sort((a, b) => byDate(b.detail?.date) - byDate(a.detail?.date))`:
JavaScript `Array.prototype.sort` is stable, embedded here as a stable
insertion sort with the same ordering (larger keys first). -/
def sortDesc (key : EnrichedItem → Int) : List EnrichedItem → List EnrichedItem
  | [] => []
  | x :: xs => insertDesc key x (sortDesc key xs)

/-- Drop leading whitespace characters. -/
def trimLeftChars : List Char → List Char
  | [] => []
  | c :: cs => if c.isWhitespace then trimLeftChars cs else c :: cs

/-- JavaScript `s.trim()` (over the whitespace characters that can occur
here: space, tab, CR, LF). -/
def jsTrim (s : String) : String :=
  String.mk ((trimLeftChars (trimLeftChars s.toList).reverse).reverse)

/-- JavaScript `toLowerCase` on the ASCII range. -/
def lowerChar (c : Char) : Char :=
  if 'A' ≤ c ∧ c ≤ 'Z' then Char.ofNat (c.toNat + 32) else c

def jsToLower (s : String) : String :=
  String.mk (s.toList.map lowerChar)

/-- Does the character list start with `pat`? -/
def startsWithChars : List Char → List Char → Bool
  | [], _ => true
  | _ :: _, [] => false
  | p :: ps, c :: cs => p = c && startsWithChars ps cs

/-- Does the character list contain `pat` as a contiguous run? -/
def hasSubChars (pat : List Char) : List Char → Bool
  | [] => startsWithChars pat []
  | c :: cs => startsWithChars pat (c :: cs) || hasSubChars pat cs

/-- JavaScript `s.includes(pat)`. -/
def strIncludes (s pat : String) : Bool :=
  hasSubChars pat.toList s.toList

/-- `filteredSorted` from `ProjectsList`: stable descending date sort, then
— only when the trimmed lower-cased query is non-empty — keep items whose
detail title is non-empty (truthy) and contains the query. -/
def filteredSorted (parse : String → Option Int) (list : List EnrichedItem)
    (searchQuery : String) : List EnrichedItem :=
  let q := jsToLower (jsTrim searchQuery)
  let base := sortDesc (itemKey parse) list
  if q = "" then base
  else
    base.filter (fun it =>
      match it.detail with
      | some d => decide (¬ d.title = "") && strIncludes (jsToLower d.title) q
      | none => false)

/-- `Math.max(1, Math.ceil(count / pageSize))` for natural counts: for a
positive `pageSize`, `Math.ceil` of the exact division is
`(count + pageSize - 1) / pageSize` in natural division. -/
def totalPages (count pageSize : Nat) : Nat :=
  max 1 ((count + pageSize - 1) / pageSize)

/-- The page-clamp effect of `ProjectsList`: an empty result set resets to
page 1, otherwise the page is clamped into `[1, totalPages]`. -/
def clampPage (p count pageSize : Nat) : Nat :=
  if count = 0 then 1
  else min (max 1 p) (totalPages count pageSize)

/-! ## Content paragraphs: form-submit split and edit-button join -/

/-- `content.replace(/\r\n/g, "\n")`: left-to-right replacement of every
CRLF pair by a single newline. -/
def normNl : List Char → List Char
  | '\r' :: '\n' :: rest => '\n' :: normNl rest
  | c :: rest => c :: normNl rest
  | [] => []

def normalizeNewlines (s : String) : String :=
  String.mk (normNl s.toList)

/-- `s.split(/\n{2,}/)` on characters: `acc` is the current chunk
(reversed) and `pending` counts newlines not yet classified; a run of two
or more newlines ends the chunk, a single newline stays inside it. -/
def splitNlRuns : List Char → List Char → Nat → List (List Char)
  | [], acc, pending =>
      if pending ≥ 2 then [acc.reverse, []]
      else [(List.replicate pending '\n' ++ acc).reverse]
  | c :: rest, acc, pending =>
      if c = '\n' then splitNlRuns rest acc (pending + 1)
      else if pending ≥ 2 then acc.reverse :: splitNlRuns rest [c] 0
      else splitNlRuns rest (c :: (List.replicate pending '\n' ++ acc)) 0

def jsSplitBlank (s : String) : List String :=
  (splitNlRuns s.toList [] 0).map String.mk

/-- `.split(/\n{2,}/).map(p => p.trim()).filter(p => p.length > 0)`. -/
def splitParas (s : String) : List String :=
  ((jsSplitBlank s).map jsTrim).filter (fun p => decide (¬ p = ""))

/-- The form-submit conversion of free-text content into the payload's
paragraph array, with the single-paragraph fallback
(`contentArray.length ? contentArray : [normalized.trim()]`). -/
def contentArrayOf (content : String) : List String :=
  let normalized := normalizeNewlines content
  let arr := splitParas normalized
  if arr.isEmpty then [jsTrim normalized] else arr

/-- The edit-button join: a stored paragraph array is trimmed, cleared of
empties and joined with a blank line (in the source the array is first
filtered to its string elements; the model's arrays are already strings). -/
def joinParas (paras : List String) : String :=
  String.intercalate "\n\n" ((paras.map jsTrim).filter (fun p => decide (¬ p = "")))

/-! ## Collection state and the initial load effect -/

/-- The `ProjectsList` state touched by a load: `items` (`null` before the
first successful load) and the view-level `error`. -/
structure CollectionState where
  items : Option (List EnrichedItem)
  error : Option String
deriving DecidableEq

/-- How one whole load ends: with an enriched list, with a thrown
non-abort error, or aborted. -/
inductive LoadOutcome where
  | success (enriched : List EnrichedItem) : LoadOutcome
  | failure (msg : String) : LoadOutcome
  | aborted : LoadOutcome

/-- The state at mount: `useState(null)` for items, `useState(null)`
(via the initial `null`) for the error. -/
def mountState : CollectionState := ⟨none, none⟩

/-- The initial load effect of `ProjectsList`: `setError(null)` runs before
the await; success stores the items, an abort returns without touching
state, and any other error is surfaced. -/
def runInitialLoad (s : CollectionState) (o : LoadOutcome) : CollectionState :=
  let cleared : CollectionState := ⟨s.items, none⟩
  match o with
  | .success enriched => ⟨some enriched, cleared.error⟩
  | .failure msg => ⟨cleared.items, some msg⟩
  | .aborted => cleared

/-- The malformedness test of the claim on index entries, word for word:
not a record, or `url`/`pathname` absent or not a string.  Second
definition following the claim's words, to be compared with
`toListItem`. -/
def claimMalformed (u : Json) : Bool :=
  !u.isRecord
  || decide (u.getStr "url" = none)
  || decide (u.getStr "pathname" = none)

/-- The amended malformedness test: additionally, an empty-string `url` or
`pathname` is malformed (the source's `if (!url || !pathname)` treats `""`
as falsy). -/
def amendedMalformed (u : Json) : Bool :=
  !u.isRecord
  || decide ((u.getStr "url").getD "" = "")
  || decide ((u.getStr "pathname").getD "" = "")

/-! ## Helper lemmas -/

lemma toListItem_eq_none_iff (u : Json) :
    toListItem u = none ↔ amendedMalformed u = true := by
  unfold toListItem amendedMalformed
  rcases h : u.isRecord with _ | _
  · simp [h]
  · rcases hu : u.getStr "url" with _ | us
    · simp [h, hu]
    · rcases hp : u.getStr "pathname" with _ | ps
      · simp [h, hu, hp]
      · by_cases h1 : us = "" <;> by_cases h2 : ps = "" <;>
          simp [h, hu, hp, h1, h2]

lemma length_filterMap_toListItem (l : List Json) :
    (l.filterMap toListItem).length + l.countP amendedMalformed = l.length := by
  induction l with
  | nil => simp
  | cons u rest ih =>
      rcases h : toListItem u with _ | x
      · have hm : amendedMalformed u = true := (toListItem_eq_none_iff u).1 h
        simp [List.filterMap_cons, h, List.countP_cons, hm]
        omega
      · have hm : amendedMalformed u = false := by
          rcases hb : amendedMalformed u with _ | _
          · rfl
          · rw [← toListItem_eq_none_iff] at hb; rw [h] at hb; cases hb
        simp [List.filterMap_cons, h, List.countP_cons, hm]
        omega

/-! ## Claim theorems -/

/-- Claim C1: for every index response, the list load extracts the same
entries whether the response is a bare JSON array, a record with an array
under `data`, or a record with an array under `items`; any other response
shape yields an empty index, not an error (`extractListRaw` is total). -/
theorem C1_index_shapes :
    (∀ xs : List Json, extractListRaw (Json.arr xs) = xs)
    ∧ (∀ fields xs, (Json.obj fields).get "data" = some (Json.arr xs) →
        extractListRaw (Json.obj fields) = xs)
    ∧ (∀ fields xs, (∀ ys, (Json.obj fields).get "data" ≠ some (Json.arr ys)) →
        (Json.obj fields).get "items" = some (Json.arr xs) →
        extractListRaw (Json.obj fields) = xs)
    ∧ (∀ j : Json, (∀ ys, j ≠ Json.arr ys) →
        (∀ ys, j.get "data" ≠ some (Json.arr ys)) →
        (∀ ys, j.get "items" ≠ some (Json.arr ys)) →
        extractListRaw j = []) := by
  refine ⟨fun xs => rfl, fun fields xs h => by simp [extractListRaw, h], ?_, ?_⟩
  · intro fields xs hd hi
    rcases h : (Json.obj fields).get "data" with _ | v
    · simp [extractListRaw, h, hi]
    · cases v <;> simp [extractListRaw, h, hi]
      exact absurd h (hd _)
  · intro j harr hd hi
    cases j with
    | arr xs => exact absurd rfl (harr xs)
    | obj fields =>
        rcases h : (Json.obj fields).get "data" with _ | v
        · rcases h2 : (Json.obj fields).get "items" with _ | w
          · simp [extractListRaw, h, h2]
          · cases w <;> simp [extractListRaw, h, h2]
            exact absurd h2 (hi _)
        · cases v <;> rcases h2 : (Json.obj fields).get "items" with _ | w <;>
            first
            | (exact absurd h (hd _))
            | simp [extractListRaw, h, h2]
          all_goals (cases w <;> simp [extractListRaw, h, h2])
          all_goals exact absurd h2 (hi _)
    | null => rfl
    | bool b => rfl
    | num n => rfl
    | str s => rfl

/-- Witness for C1 at concrete inputs: a `data` record extracts its array,
and a `null` response (any other shape) yields the empty index. -/
theorem C1_index_shapes_witness :
    extractListRaw (Json.obj [("data", Json.arr [Json.null])]) = [Json.null]
    ∧ extractListRaw Json.null = [] :=
  ⟨C1_index_shapes.2.1 [("data", Json.arr [Json.null])] [Json.null] rfl,
   C1_index_shapes.2.2.2 Json.null (fun ys h => Json.noConfusion h)
     (fun ys h => by simp [Json.get] at h)
     (fun ys h => by simp [Json.get] at h)⟩

/-- Claim C2 counterexample: the entry `{url: "", pathname: "x"}` is a
record with string `url` and `pathname` — well-formed in the claim's sense
(`K = 0`) — yet the coercion drops it, so the load yields `0 ≠ N − K = 1`
items. -/
theorem C2_drop_counterexample :
    [Json.obj [("url", Json.str ""), ("pathname", Json.str "x")]].countP claimMalformed = 0
    ∧ ([Json.obj [("url", Json.str ""), ("pathname", Json.str "x")]].filterMap
        toListItem).length
      ≠ [Json.obj [("url", Json.str ""), ("pathname", Json.str "x")]].length
        - [Json.obj [("url", Json.str ""), ("pathname", Json.str "x")]].countP
            claimMalformed := by
  decide

/-- Claim C2 (amended): with malformed additionally covering an empty
`url` or `pathname`, an index of `N` raw entries of which `K` are
malformed yields exactly `N − K` items, and every well-formed entry
survives into the result. -/
theorem C2_filter_length (l : List Json) :
    ((l.filterMap toListItem).length = l.length - l.countP amendedMalformed)
    ∧ (∀ u ∈ l, amendedMalformed u = false →
        ∃ x, toListItem u = some x ∧ x ∈ l.filterMap toListItem) := by
  constructor
  · have := length_filterMap_toListItem l
    omega
  · intro u hu hm
    rcases h : toListItem u with _ | x
    · rw [toListItem_eq_none_iff u] at h; rw [h] at hm; cases hm
    · exact ⟨x, rfl, List.mem_filterMap.2 ⟨u, hu, h⟩⟩

/-- Witness for C2 at a concrete index: one well-formed and one malformed
entry give exactly one surviving item, the well-formed one. -/
theorem C2_filter_length_witness :
    (([Json.obj [("url", Json.str "u"), ("pathname", Json.str "p")], Json.null].filterMap
        toListItem).length
      = 2 - [Json.obj [("url", Json.str "u"), ("pathname", Json.str "p")], Json.null].countP
          amendedMalformed)
    ∧ amendedMalformed (Json.obj [("url", Json.str "u"), ("pathname", Json.str "p")]) = false
    ∧ ∃ x, toListItem (Json.obj [("url", Json.str "u"), ("pathname", Json.str "p")]) = some x
        ∧ x ∈ [Json.obj [("url", Json.str "u"), ("pathname", Json.str "p")],
               Json.null].filterMap toListItem :=
  ⟨(C2_filter_length _).1, rfl,
   (C2_filter_length [Json.obj [("url", Json.str "u"), ("pathname", Json.str "p")],
      Json.null]).2 _ (by simp) rfl⟩

lemma enrichAll_length (oracle : Nat → DetailResponse) (base : List ProjectListItem) (s : Nat) :
    (enrichAll oracle base s).length = base.length := by
  induction base generalizing s with
  | nil => rfl
  | cons b rest ih => simp [enrichAll, ih]

lemma enrichAll_getElem (oracle : Nat → DetailResponse) (base : List ProjectListItem)
    (s i : Nat) :
    (enrichAll oracle base s)[i]? = (base[i]?).map (fun b => enrichOne b (oracle (s + i))) := by
  induction base generalizing s i with
  | nil => simp [enrichAll]
  | cons b rest ih =>
      cases i with
      | zero => simp [enrichAll]
      | succ n =>
          simp only [enrichAll, List.getElem?_cons_succ, ih (s + 1) n]
          have : s + 1 + n = s + (n + 1) := by omega
          rw [this]

lemma enrichAll_mem (oracle : Nat → DetailResponse) (base : List ProjectListItem) (s : Nat) :
    ∀ it ∈ enrichAll oracle base s, ∃ b i, b ∈ base ∧ it = enrichOne b (oracle i) := by
  induction base generalizing s with
  | nil => intro it h; cases h
  | cons b rest ih =>
      intro it h
      simp only [enrichAll] at h
      rcases List.mem_cons.1 h with h | h
      · exact ⟨b, s, List.mem_cons_self b rest, h⟩
      · rcases ih (s + 1) it h with ⟨b2, i, hb, he⟩
        exact ⟨b2, i, List.mem_cons_of_mem b hb, he⟩

/-- Claim C3: one entry's detail failure never fails the overall load and
never removes other entries: the result has exactly one item per surviving
entry, the item at position `i` depends only on entry `i`'s own outcome,
an entry whose fetch returns a valid body carries its `detail`, and an
entry whose fetch fails with a non-2xx status carries the `HTTP` error. -/
theorem C3_partial_failure (indexResp : Json) (oracle : Nat → DetailResponse) :
    (fetchProjects indexResp oracle).length
      = ((extractListRaw indexResp).filterMap toListItem).length
    ∧ (∀ i, (fetchProjects indexResp oracle)[i]?
        = (((extractListRaw indexResp).filterMap toListItem)[i]?).map
            (fun b => enrichOne b (oracle i)))
    ∧ (∀ i b body d, ((extractListRaw indexResp).filterMap toListItem)[i]? = some b →
        oracle i = .success body → toDetail body = some d →
        (fetchProjects indexResp oracle)[i]? = some ⟨b.url, b.pathname, some d, none⟩)
    ∧ (∀ i b status, ((extractListRaw indexResp).filterMap toListItem)[i]? = some b →
        oracle i = .httpError status →
        (fetchProjects indexResp oracle)[i]?
          = some ⟨b.url, b.pathname, none, some ("HTTP " ++ toString status)⟩) := by
  refine ⟨enrichAll_length oracle _ 0, fun i => ?_, fun i b body d hb ho hd => ?_,
    fun i b status hb ho => ?_⟩
  · have := enrichAll_getElem oracle ((extractListRaw indexResp).filterMap toListItem) 0 i
    simpa [fetchProjects] using this
  · have := enrichAll_getElem oracle ((extractListRaw indexResp).filterMap toListItem) 0 i
    simp [fetchProjects, this, hb, ho, enrichOne, hd]
  · have := enrichAll_getElem oracle ((extractListRaw indexResp).filterMap toListItem) 0 i
    simp [fetchProjects, this, hb, ho, enrichOne]

def sampleEntry (n : String) : Json :=
  Json.obj [("url", Json.str ("u" ++ n)), ("pathname", Json.str ("p" ++ n))]

def sampleIndex5 : Json :=
  Json.arr [sampleEntry "1", sampleEntry "2", sampleEntry "3", sampleEntry "4", sampleEntry "5"]

def sampleBody : Json := Json.obj [("title", Json.str "T")]

def sampleDetail : ProjectDetail := ⟨"T", "", "", ⟨"", ""⟩⟩

/-- The third of five detail fetches fails with HTTP 500, the others
succeed with a valid body. -/
def sampleOracle5 : Nat → DetailResponse :=
  fun i => if i = 2 then .httpError 500 else .success sampleBody

/-- Witness for C3: with one failing URL among five, the result still has
five items; item 2 carries the error and item 0 carries its detail. -/
theorem C3_partial_failure_witness :
    (fetchProjects sampleIndex5 sampleOracle5).length = 5
    ∧ (fetchProjects sampleIndex5 sampleOracle5)[2]?
        = some ⟨"u3", "p3", none, some ("HTTP " ++ toString 500)⟩
    ∧ (fetchProjects sampleIndex5 sampleOracle5)[0]?
        = some ⟨"u1", "p1", some sampleDetail, none⟩ :=
  ⟨by rw [(C3_partial_failure sampleIndex5 sampleOracle5).1]; rfl,
   (C3_partial_failure sampleIndex5 sampleOracle5).2.2.2 2 ⟨"u3", "p3"⟩ 500 rfl rfl,
   (C3_partial_failure sampleIndex5 sampleOracle5).2.2.1 0 ⟨"u1", "p1"⟩ sampleBody
     sampleDetail rfl rfl rfl⟩

/-- Claim C5: a cancelled detail fetch merges to the bare entry — neither
`detail` nor `error` is set — while every non-cancellation failure (HTTP
error, other thrown error, invalid schema) sets `error`. -/
theorem C5_cancelled_merge (b : ProjectListItem) :
    (enrichOne b .aborted = ⟨b.url, b.pathname, none, none⟩)
    ∧ (∀ status, enrichOne b (.httpError status)
        = ⟨b.url, b.pathname, none, some ("HTTP " ++ toString status)⟩)
    ∧ (∀ msg, enrichOne b (.networkError msg) = ⟨b.url, b.pathname, none, some msg⟩)
    ∧ (∀ body, toDetail body = none →
        enrichOne b (.success body) = ⟨b.url, b.pathname, none, some "Invalid detail schema"⟩) := by
  refine ⟨rfl, fun status => rfl, fun msg => rfl, fun body h => ?_⟩
  simp [enrichOne, h]

/-- Witness for C5: a `null` body fails schema validation and yields the
invalid-schema error on a concrete entry. -/
theorem C5_cancelled_merge_witness :
    toDetail Json.null = none
    ∧ enrichOne ⟨"u", "p"⟩ (.success Json.null)
        = ⟨"u", "p", none, some "Invalid detail schema"⟩ :=
  ⟨rfl, (C5_cancelled_merge ⟨"u", "p"⟩).2.2.2 Json.null rfl⟩

/-- Claim C10: every enriched item has at most one of `detail` and `error`
set — the success branch sets only `detail`, the abort branch sets neither
— and every branch keeps the entry's `url` and `pathname`; every item the
list load produces satisfies the exclusivity invariant. -/
theorem C10_exclusive_fields :
    (∀ b resp, ((enrichOne b resp).detail = none ∨ (enrichOne b resp).error = none)
      ∧ (enrichOne b resp).url = b.url ∧ (enrichOne b resp).pathname = b.pathname)
    ∧ (∀ b body d, toDetail body = some d →
        (enrichOne b (.success body)).detail = some d
        ∧ (enrichOne b (.success body)).error = none)
    ∧ (∀ b, (enrichOne b .aborted).detail = none ∧ (enrichOne b .aborted).error = none)
    ∧ (∀ indexResp oracle it, it ∈ fetchProjects indexResp oracle →
        it.detail = none ∨ it.error = none) := by
  have hone : ∀ b resp, ((enrichOne b resp).detail = none ∨ (enrichOne b resp).error = none)
      ∧ (enrichOne b resp).url = b.url ∧ (enrichOne b resp).pathname = b.pathname := by
    intro b resp
    cases resp with
    | success body => cases h : toDetail body <;> simp [enrichOne, h]
    | httpError status => simp [enrichOne]
    | networkError msg => simp [enrichOne]
    | aborted => simp [enrichOne]
  refine ⟨hone, fun b body d h => by simp [enrichOne, h], fun b => by simp [enrichOne], ?_⟩
  intro indexResp oracle it hmem
  rcases enrichAll_mem oracle ((extractListRaw indexResp).filterMap toListItem) 0 it hmem
    with ⟨b, i, _, he⟩
  rw [he]
  exact (hone b (oracle i)).1

/-- Witness for C10: a valid body sets only `detail` on a concrete entry,
and a concrete loaded item satisfies the exclusivity invariant. -/
theorem C10_exclusive_fields_witness :
    toDetail sampleBody = some sampleDetail
    ∧ ((enrichOne ⟨"u", "p"⟩ (.success sampleBody)).detail = some sampleDetail
        ∧ (enrichOne ⟨"u", "p"⟩ (.success sampleBody)).error = none)
    ∧ (⟨"u3", "p3", none, some ("HTTP " ++ toString 500)⟩ : EnrichedItem)
        ∈ fetchProjects sampleIndex5 sampleOracle5
    ∧ ((⟨"u3", "p3", none, some ("HTTP " ++ toString 500)⟩ : EnrichedItem).detail = none
        ∨ (⟨"u3", "p3", none, some ("HTTP " ++ toString 500)⟩ : EnrichedItem).error = none) :=
  ⟨rfl, C10_exclusive_fields.2.1 ⟨"u", "p"⟩ sampleBody sampleDetail rfl, by decide,
   C10_exclusive_fields.2.2.2 sampleIndex5 sampleOracle5 _ (by decide)⟩

lemma partnerOf_eq_zero (u : Json)
    (h : ∀ p, u.get "partner" = some p → p.isRecord = false) :
    partnerOf u = ⟨"", ""⟩ := by
  unfold partnerOf
  rcases hp : u.get "partner" with _ | p
  · rfl
  · simp [h p hp]

lemma authorsOf_eq_nil (u : Json) (h : ∀ xs, u.get "authors" ≠ some (Json.arr xs)) :
    authorsOf u = [] := by
  unfold authorsOf
  rcases hp : u.get "authors" with _ | p
  · rfl
  · cases p <;> first | rfl | exact absurd hp (h _)

/-- Claim C4: a detail body fails to parse exactly when `title` is absent,
not a string, or empty; every other field of the wrong or missing type
degrades to its zero value without failing the parse — `""` for the string
fields, `[]` for `authors`, `{name:"", url:""}` for a non-record
`partner`. -/
theorem C4_detail_validity (u : Json) :
    (toDetail u = none ↔ (u.getStr "title").getD "" = "")
    ∧ (toDetailPub u = none ↔ (u.getStr "title").getD "" = "")
    ∧ (∀ d, toDetail u = some d →
        (u.getStr "content" = none → d.content = "")
        ∧ (u.getStr "date" = none → d.date = "")
        ∧ ((∀ p, u.get "partner" = some p → p.isRecord = false) → d.partner = ⟨"", ""⟩))
    ∧ (∀ d, toDetailPub u = some d →
        (u.getStr "content" = none → d.content = "")
        ∧ (u.getStr "date" = none → d.date = "")
        ∧ (u.getStr "publicationUrl" = none → d.publicationUrl = "")
        ∧ (u.getStr "venue" = none → d.venue = "")
        ∧ ((∀ xs, u.get "authors" ≠ some (Json.arr xs)) → d.authors = [])) := by
  refine ⟨?_, ?_, ?_, ?_⟩
  · cases u with
    | obj fields =>
        rcases ht : (Json.obj fields).getStr "title" with _ | t
        · simp [toDetail, Json.isRecord, ht]
        · by_cases he : t = "" <;> simp [toDetail, Json.isRecord, ht, he]
    | arr xs => simp [toDetail, Json.isRecord, Json.getStr, Json.get]
    | null => simp [toDetail, Json.isRecord, Json.getStr, Json.get]
    | bool b => simp [toDetail, Json.isRecord, Json.getStr, Json.get]
    | num n => simp [toDetail, Json.isRecord, Json.getStr, Json.get]
    | str s => simp [toDetail, Json.isRecord, Json.getStr, Json.get]
  · cases u with
    | obj fields =>
        rcases ht : (Json.obj fields).getStr "title" with _ | t
        · simp [toDetailPub, Json.isRecord, ht]
        · by_cases he : t = "" <;> simp [toDetailPub, Json.isRecord, ht, he]
    | arr xs => simp [toDetailPub, Json.isRecord, Json.getStr, Json.get]
    | null => simp [toDetailPub, Json.isRecord, Json.getStr, Json.get]
    | bool b => simp [toDetailPub, Json.isRecord, Json.getStr, Json.get]
    | num n => simp [toDetailPub, Json.isRecord, Json.getStr, Json.get]
    | str s => simp [toDetailPub, Json.isRecord, Json.getStr, Json.get]
  · intro d hd
    cases u with
    | obj fields =>
        rcases ht : (Json.obj fields).getStr "title" with _ | t
        · simp [toDetail, Json.isRecord, ht] at hd
        · by_cases he : t = ""
          · simp [toDetail, Json.isRecord, ht, he] at hd
          · simp only [toDetail, Json.isRecord, ht, he] at hd
            simp at hd
            refine ⟨fun hc => ?_, fun hdt => ?_, fun hp => ?_⟩
            · rw [← hd]; simp [hc]
            · rw [← hd]; simp [hdt]
            · rw [← hd]; simpa using partnerOf_eq_zero _ hp
    | arr xs => simp [toDetail, Json.isRecord, Json.getStr, Json.get] at hd
    | null => simp [toDetail, Json.isRecord, Json.getStr, Json.get] at hd
    | bool b => simp [toDetail, Json.isRecord, Json.getStr, Json.get] at hd
    | num n => simp [toDetail, Json.isRecord, Json.getStr, Json.get] at hd
    | str s => simp [toDetail, Json.isRecord, Json.getStr, Json.get] at hd
  · intro d hd
    cases u with
    | obj fields =>
        rcases ht : (Json.obj fields).getStr "title" with _ | t
        · simp [toDetailPub, Json.isRecord, ht] at hd
        · by_cases he : t = ""
          · simp [toDetailPub, Json.isRecord, ht, he] at hd
          · simp only [toDetailPub, Json.isRecord, ht, he] at hd
            simp at hd
            refine ⟨fun hc => ?_, fun hdt => ?_, fun hpu => ?_, fun hv => ?_, fun ha => ?_⟩
            · rw [← hd]; simp [hc]
            · rw [← hd]; simp [hdt]
            · rw [← hd]; simp [hpu]
            · rw [← hd]; simp [hv]
            · rw [← hd]; simpa using authorsOf_eq_nil _ ha
    | arr xs => simp [toDetailPub, Json.isRecord, Json.getStr, Json.get] at hd
    | null => simp [toDetailPub, Json.isRecord, Json.getStr, Json.get] at hd
    | bool b => simp [toDetailPub, Json.isRecord, Json.getStr, Json.get] at hd
    | num n => simp [toDetailPub, Json.isRecord, Json.getStr, Json.get] at hd
    | str s => simp [toDetailPub, Json.isRecord, Json.getStr, Json.get] at hd

/-- Witness for C4 on a concrete body: `title` present, every other field
of the wrong type — the parse succeeds with all zero values. -/
theorem C4_detail_validity_witness :
    (Json.obj [("title", Json.str "T"), ("content", Json.num 3),
        ("partner", Json.str "x")]).getStr "content" = none
    ∧ toDetail (Json.obj [("title", Json.str "T"), ("content", Json.num 3),
        ("partner", Json.str "x")])
      = some ⟨"T", "", "", ⟨"", ""⟩⟩
    ∧ (⟨"T", "", "", ⟨"", ""⟩⟩ : ProjectDetail).content = ""
    ∧ (⟨"T", "", "", ⟨"", ""⟩⟩ : ProjectDetail).partner = ⟨"", ""⟩ := by
  have h := (C4_detail_validity (Json.obj [("title", Json.str "T"), ("content", Json.num 3),
    ("partner", Json.str "x")])).2.2.1 ⟨"T", "", "", ⟨"", ""⟩⟩ rfl
  refine ⟨rfl, rfl, h.1 rfl, h.2.2 ?_⟩
  intro p hp
  simp [Json.get] at hp
  subst hp
  rfl

lemma insertDesc_perm (key : EnrichedItem → Int) (x : EnrichedItem) (l : List EnrichedItem) :
    List.Perm (insertDesc key x l) (x :: l) := by
  induction l with
  | nil => exact List.Perm.refl _
  | cons y ys ih =>
      unfold insertDesc
      by_cases h : key y ≤ key x
      · simp [h]
      · simp only [if_neg h]
        exact (List.Perm.cons y ih).trans (List.Perm.swap x y ys)

lemma sortDesc_perm (key : EnrichedItem → Int) (l : List EnrichedItem) :
    List.Perm (sortDesc key l) l := by
  induction l with
  | nil => exact List.Perm.refl _
  | cons x xs ih =>
      exact (insertDesc_perm key x (sortDesc key xs)).trans (List.Perm.cons x ih)

lemma mem_insertDesc (key : EnrichedItem → Int) (x a : EnrichedItem) (l : List EnrichedItem) :
    a ∈ insertDesc key x l ↔ a = x ∨ a ∈ l := by
  rw [(insertDesc_perm key x l).mem_iff]
  simp

lemma insertDesc_sorted (key : EnrichedItem → Int) (x : EnrichedItem) (l : List EnrichedItem)
    (h : l.Pairwise (fun a b => key b ≤ key a)) :
    (insertDesc key x l).Pairwise (fun a b => key b ≤ key a) := by
  induction l with
  | nil => simp [insertDesc]
  | cons y ys ih =>
      rcases List.pairwise_cons.1 h with ⟨hy, hys⟩
      by_cases hk : key y ≤ key x
      · simp only [insertDesc, if_pos hk]
        refine List.pairwise_cons.2 ⟨?_, h⟩
        intro z hz
        rcases List.mem_cons.1 hz with hz | hz
        · exact hz ▸ hk
        · exact (hy z hz).trans hk
      · simp only [insertDesc, if_neg hk]
        refine List.pairwise_cons.2 ⟨?_, ih hys⟩
        intro z hz
        rcases (mem_insertDesc key x z ys).1 hz with hz | hz
        · exact hz ▸ le_of_lt (lt_of_not_le hk)
        · exact hy z hz

lemma sortDesc_sorted (key : EnrichedItem → Int) (l : List EnrichedItem) :
    (sortDesc key l).Pairwise (fun a b => key b ≤ key a) := by
  induction l with
  | nil => simp [sortDesc]
  | cons x xs ih => exact insertDesc_sorted key x (sortDesc key xs) ih

lemma filter_insertDesc (key : EnrichedItem → Int) (x : EnrichedItem) (l : List EnrichedItem)
    (k : Int) :
    (insertDesc key x l).filter (fun a => decide (key a = k))
      = if key x = k then x :: l.filter (fun a => decide (key a = k))
        else l.filter (fun a => decide (key a = k)) := by
  induction l with
  | nil => by_cases h : key x = k <;> simp [insertDesc, h]
  | cons y ys ih =>
      by_cases hk : key y ≤ key x
      · rw [insertDesc, if_pos hk]
        by_cases h : key x = k
        · rw [if_pos h]
          simp [List.filter_cons, h]
        · rw [if_neg h]
          simp [List.filter_cons, h]
      · rw [insertDesc, if_neg hk]
        have hxy : key x < key y := lt_of_not_le hk
        rw [List.filter_cons, ih]
        by_cases hyk : key y = k
        · have hxk : ¬ key x = k := by omega
          rw [if_neg hxk, if_neg hxk]
          simp [List.filter_cons, hyk]
        · by_cases h : key x = k
          · rw [if_pos h, if_pos h]
            simp [List.filter_cons, hyk]
          · rw [if_neg h, if_neg h]
            simp [List.filter_cons, hyk]

lemma sortDesc_filter (key : EnrichedItem → Int) (l : List EnrichedItem) (k : Int) :
    (sortDesc key l).filter (fun a => decide (key a = k))
      = l.filter (fun a => decide (key a = k)) := by
  induction l with
  | nil => rfl
  | cons x xs ih =>
      by_cases h : key x = k <;> simp [sortDesc, filter_insertDesc, h, ih]

/-- Claim C6: the view projection sorts by detail date descending; an item
with a missing or unparseable date sorts with key 0; and the sort is
stable — for every key value the items carrying it keep their original
relative order (their filtered subsequence is unchanged). -/
theorem C6_sort_stable (parse : String → Option Int) (list : List EnrichedItem) :
    filteredSorted parse list "" = sortDesc (itemKey parse) list
    ∧ List.Perm (sortDesc (itemKey parse) list) list
    ∧ (sortDesc (itemKey parse) list).Pairwise
        (fun a b => itemKey parse b ≤ itemKey parse a)
    ∧ (∀ k : Int,
        (sortDesc (itemKey parse) list).filter (fun a => decide (itemKey parse a = k))
          = list.filter (fun a => decide (itemKey parse a = k)))
    ∧ (∀ it : EnrichedItem, it.detail = none → itemKey parse it = 0)
    ∧ (∀ it : EnrichedItem, ∀ s, it.detail.map (fun d => d.date) = some s →
        parse s = none → itemKey parse it = 0) := by
  refine ⟨rfl, sortDesc_perm _ _, sortDesc_sorted _ _, sortDesc_filter _ _,
    fun it h => ?_, fun it s hs hp => ?_⟩
  · simp [itemKey, byDate, h]
  · by_cases he : s = "" <;> simp [itemKey, byDate, hs, he, hp]

/-- Witness for C6: an item without detail and an item with an unparseable
date both get sort key 0 under a concrete parse function. -/
theorem C6_sort_stable_witness :
    ((⟨"u", "p", none, none⟩ : EnrichedItem).detail = none
      ∧ itemKey (fun _ => none) ⟨"u", "p", none, none⟩ = 0)
    ∧ ((⟨"u2", "p2", some ⟨"T", "", "x", ⟨"", ""⟩⟩, none⟩ : EnrichedItem).detail.map
          (fun d => d.date) = some "x"
      ∧ (fun _ => (none : Option Int)) "x" = none
      ∧ itemKey (fun _ => none) ⟨"u2", "p2", some ⟨"T", "", "x", ⟨"", ""⟩⟩, none⟩ = 0) :=
  ⟨⟨rfl, (C6_sort_stable (fun _ => none) []).2.2.2.2.1 ⟨"u", "p", none, none⟩ rfl⟩,
   ⟨rfl, rfl,
    (C6_sort_stable (fun _ => none) []).2.2.2.2.2 ⟨"u2", "p2", some ⟨"T", "", "x", ⟨"", ""⟩⟩, none⟩
      "x" rfl rfl⟩⟩

lemma natCeilDiv_eq (a b : Nat) (hb : 0 < b) :
    (a + b - 1) / b = ⌈(a : ℚ) / (b : ℚ)⌉₊ := by
  have hbq : (0 : ℚ) < (b : ℚ) := by exact_mod_cast hb
  have key : ∀ n : Nat, a ≤ n * b ↔ (a : ℚ) / (b : ℚ) ≤ (n : ℚ) := by
    intro n
    rw [div_le_iff₀ hbq]
    constructor
    · intro h; exact_mod_cast h
    · intro h; exact_mod_cast h
  apply le_antisymm
  · have h1 : a ≤ ⌈(a : ℚ) / (b : ℚ)⌉₊ * b := (key _).2 (Nat.le_ceil _)
    rw [Nat.div_le_iff_le_mul_add_pred hb]
    have h2 : a + b - 1 = a + (b - 1) := by omega
    rw [h2, Nat.mul_comm]
    exact Nat.add_le_add_right h1 (b - 1)
  · apply Nat.ceil_le.2
    apply (key ((a + b - 1) / b)).1
    have h2 : a + b - 1 ≤ b * ((a + b - 1) / b) + (b - 1) :=
      (Nat.div_le_iff_le_mul_add_pred hb).1 (le_refl _)
    have h3 : b * ((a + b - 1) / b) = ((a + b - 1) / b) * b := Nat.mul_comm _ _
    omega

/-- Claim C7: `totalPages` is `max(1, ceil(filteredCount / pageSize))` and
the clamped page always lands in `[1, totalPages]`; concretely, 12
filtered items with page size 5 give 3 pages and a requested page 5 clamps
to 3. -/
theorem C7_pagination (count pageSize p : Nat) (h : 0 < pageSize) :
    totalPages count pageSize = max 1 ⌈(count : ℚ) / (pageSize : ℚ)⌉₊
    ∧ 1 ≤ clampPage p count pageSize
    ∧ clampPage p count pageSize ≤ totalPages count pageSize
    ∧ totalPages 12 5 = 3
    ∧ clampPage 5 12 5 = 3 := by
  refine ⟨?_, ?_, ?_, by decide, by decide⟩
  · unfold totalPages
    rw [natCeilDiv_eq count pageSize h]
  · unfold clampPage
    split
    · exact le_refl 1
    · refine le_min (le_max_left 1 p) ?_
      unfold totalPages
      exact le_max_left 1 _
  · unfold clampPage
    split
    · unfold totalPages
      exact le_max_left 1 _
    · exact min_le_right _ _

/-- Witness for C7 at page size 5: the concrete clamp facts of the claim. -/
theorem C7_pagination_witness :
    0 < 5
    ∧ totalPages 12 5 = max 1 ⌈(12 : ℚ) / (5 : ℚ)⌉₊
    ∧ clampPage 5 12 5 ≤ totalPages 12 5 :=
  ⟨by decide, (C7_pagination 12 5 5 (by decide)).1, (C7_pagination 12 5 5 (by decide)).2.2.1⟩

/-- Claim C8: content is split — after newline normalization — on runs of
two or more newlines into trimmed non-empty paragraphs, with a fallback to
one paragraph of the trimmed whole text when none remain; the edit path
joins the stored paragraphs with a blank line; for
`"para one\n\npara two"` the stored sequence is
`["para one", "para two"]` and the join reproduces the identical text. -/
theorem C8_paragraph_roundtrip :
    contentArrayOf "para one\n\npara two" = ["para one", "para two"]
    ∧ joinParas ["para one", "para two"] = "para one\n\npara two"
    ∧ (∀ c, splitParas (normalizeNewlines c) ≠ [] →
        contentArrayOf c = splitParas (normalizeNewlines c))
    ∧ (∀ c, splitParas (normalizeNewlines c) = [] →
        contentArrayOf c = [jsTrim (normalizeNewlines c)])
    ∧ (∀ s p, p ∈ splitParas s → ¬ p = "") := by
  refine ⟨rfl, rfl, ?_, ?_, ?_⟩
  · intro c h
    unfold contentArrayOf
    rw [if_neg (by simpa [List.isEmpty_iff] using h)]
  · intro c h
    unfold contentArrayOf
    rw [if_pos (by simpa [List.isEmpty_iff] using h)]
  · intro s p hp
    unfold splitParas at hp
    simpa using (List.mem_filter.1 hp).2

/-- Witness for C8: a concrete content string whose split is non-empty
takes the non-fallback branch, and its paragraphs are non-empty. -/
theorem C8_paragraph_roundtrip_witness :
    splitParas (normalizeNewlines "a\n\nb") ≠ []
    ∧ contentArrayOf "a\n\nb" = splitParas (normalizeNewlines "a\n\nb")
    ∧ "a" ∈ splitParas "a\n\nb"
    ∧ ¬ "a" = "" :=
  ⟨by decide, C8_paragraph_roundtrip.2.2.1 "a\n\nb" (by decide), by decide,
   C8_paragraph_roundtrip.2.2.2.2 "a\n\nb" "a" (by decide)⟩

/-- Claim C9: an aborted initial load leaves the collection state exactly
as it was before the load started — the abort writes no items and
surfaces no error; the mount state (the only state the effect can start
from) is preserved unchanged. -/
theorem C9_abort_unchanged (s : CollectionState) (h : s.error = none) :
    runInitialLoad s .aborted = s
    ∧ (∀ s2 : CollectionState, (runInitialLoad s2 .aborted).items = s2.items)
    ∧ (∀ s2 : CollectionState, (runInitialLoad s2 .aborted).error = none)
    ∧ runInitialLoad mountState .aborted = mountState := by
  refine ⟨?_, fun s2 => rfl, fun s2 => rfl, rfl⟩
  cases s with
  | mk items err =>
      have he : err = none := h
      subst he
      rfl

/-- Witness for C9: the mount state has no error and is unchanged by an
aborted load. -/
theorem C9_abort_unchanged_witness :
    mountState.error = none ∧ runInitialLoad mountState .aborted = mountState :=
  ⟨rfl, (C9_abort_unchanged mountState rfl).1⟩
